import Mathlib

/-!
# Verification of the `webcrawler` crawl engine

Shallow embedding of `src/webcrawler/web_crawler.py` (class `WebCrawler`):
the URL validator, the link/data extractors, the statistics query, and the
frontier/crawl loop, together with proofs of the specification claims.

Conventions of the embedding:
* A parsed HTML document (`BeautifulSoup` tree) is a list of `Elem` in
  document order; `find_all` is list filtering in document order.
* The Python `set` of visited URLs is a `Finset String`; the pending list
  `to_visit` is a `List String`.
* The HTTP fetch (`get_page_content`) is an oracle
  `fetch : String → Option (List Elem)`; `none` models the `None` returned
  on any `requests` failure, `some doc` models a parsed page.
* `max_pages` is an `Int` (a Python int may be non-positive).
* The `while` loop of `crawl` is `crawlLoop`, one `crawlStep` per
  iteration, driven by fuel; `crawlLoop_stops` shows the fuel chosen in
  `crawl` suffices, so `crawl` is the full run of the Python loop.
* Wall-clock effects (`time.sleep`, `scraped_at` timestamps, logging,
  progress printing) have no bearing on the data claims and are omitted.
-/

/-- Python `s.startswith(p)`: character-list prefix test.
(The Lean core `String.startsWith` is positional and does not reduce in
the kernel, so the embedding uses the list form.) -/
def startsWithStr (s p : String) : Bool :=
  p.toList.isPrefixOf s.toList

/-- Whitespace as stripped by Python's `str.strip()` (ASCII forms). -/
def isStripChar (c : Char) : Bool :=
  c == ' ' || c == '\t' || c == '\n' || c == '\r' || c == '\x0c' || c == '\x0b'

/-- Python `str.strip()`: drop leading and trailing whitespace. -/
def pyStrip (s : String) : String :=
  String.mk (((s.toList.dropWhile isStripChar).reverse.dropWhile isStripChar).reverse)

/-- Characters Python's `urllib.parse` accepts inside a URL scheme. -/
def isSchemeChar (c : Char) : Bool :=
  c.isAlpha || c.isDigit || c == '+' || c == '-' || c == '.'

/-- Scan up to the first `:`; succeed only if every character before it is a
scheme character. Returns (scheme chars, remainder after the colon). -/
def schemeSplitAux : List Char → List Char → Option (List Char × List Char)
  | _, [] => none
  | acc, c :: cs =>
    if c == ':' then some (acc.reverse, cs)
    else if isSchemeChar c then schemeSplitAux (c :: acc) cs
    else none

/-- Modelled from the Python standard library `urllib.parse`: split off a
URL scheme (non-empty, starting with a letter, lowercased as `urlparse`
lowercases it), returning the scheme and the rest of the URL. -/
def splitScheme (s : List Char) : Option (String × List Char) :=
  match s with
  | [] => none
  | c :: _ =>
    if c.isAlpha then
      match schemeSplitAux [] s with
      | some ([], _) => none
      | some (sch, rest) => some (String.mk (sch.map Char.toLower), rest)
      | none => none
    else none

/-- Network-authority component: present only when the (scheme-stripped)
URL starts with `//`, extending to the next `/`, `?` or `#`. -/
def netlocOf (s : List Char) : String :=
  match s with
  | '/' :: '/' :: rest =>
    String.mk (rest.takeWhile fun c => !(c == '/' || c == '?' || c == '#'))
  | _ => ""

/-- The two components of a parsed URL that the crawler reads. -/
structure ParsedUrl where
  scheme : String
  netloc : String
deriving DecidableEq

/-- Scheme and netloc extraction of `urllib.parse.urlsplit`, before its
bracket validation (the two components the crawler reads). -/
def urlparseRaw (url : String) : ParsedUrl :=
  match splitScheme url.toList with
  | some (sch, rest) => { scheme := sch, netloc := netlocOf rest }
  | none => { scheme := "", netloc := netlocOf url.toList }

/-- Python exceptions surfaced by the embedded library functions. -/
inductive PyError where
  | valueError (msg : String)
deriving DecidableEq

/-- The unmatched-bracket rule of `urllib.parse.urlsplit`: an authority
containing `[` without `]`, or `]` without `[`, makes the parser raise
`ValueError("Invalid IPv6 URL")`. -/
def invalidNetloc (netloc : String) : Bool :=
  (netloc.toList.contains '[' && !(netloc.toList.contains ']')) ||
    (netloc.toList.contains ']' && !(netloc.toList.contains '['))

/-- Modelled from the Python standard library `urllib.parse.urlparse`,
restricted to the `scheme` and `netloc` components (the only ones the
crawler reads), including the `ValueError` the parser raises on an
authority with an unmatched bracket (e.g. `"http://["`), modelled as
`Except.error`. The bracketed-host content validation some newer CPython
versions add on top of the unmatched-bracket rule is not modelled; no
claim depends on it. -/
def urlparse (url : String) : Except PyError ParsedUrl :=
  if invalidNetloc (urlparseRaw url).netloc then
    Except.error (PyError.valueError ("Invalid IPv6 URL"))
  else Except.ok (urlparseRaw url)

/-- Path component of a URL (after the authority, before `?` or `#`). -/
def pathPart : List Char → List Char
  | '/' :: '/' :: rest =>
    (rest.dropWhile fun c => !(c == '/' || c == '?' || c == '#')).takeWhile
      fun c => !(c == '?' || c == '#')
  | s => s.takeWhile fun c => !(c == '?' || c == '#')

/-- Path of a URL string, scheme stripped first. -/
def basePath (base : String) : List Char :=
  match splitScheme base.toList with
  | some (_, rest) => pathPart rest
  | none => pathPart base.toList

/-- Keep the path up to and including its last `/` (the directory part). -/
def stripToLastSlash (path : List Char) : List Char :=
  (path.reverse.dropWhile fun c => !(c == '/')).reverse

/-- Modelled from the Python standard library `urllib.parse.urljoin`, for
the reference shapes the crawler exercises: empty reference, absolute
reference (has a scheme), scheme-relative (`//…`), root-relative (`/…`)
and sibling-relative references. Dot-segment normalization and the
same-scheme relative form (`http:d`) are not modelled; no claim depends
on them. Python's `urljoin` parses its arguments and would propagate the
unmatched-bracket `ValueError`; the crawler only ever joins against page
URLs that already parsed successfully (a bracket-malformed seed never
survives construction), raising references occur in no claim, so the
total component extraction is used here. -/
def urljoin (base url : String) : String :=
  if url = "" then base
  else if (splitScheme url.toList).isSome then url
  else
    let p := urlparseRaw base
    if startsWithStr url ("//") then p.scheme ++ (":") ++ url
    else if startsWithStr url ("/") then p.scheme ++ ("://") ++ p.netloc ++ url
    else p.scheme ++ ("://") ++ p.netloc ++
      String.mk (stripToLastSlash (basePath base)) ++ url

/-- The validator `WebCrawler.is_valid_url`, as a function of the pieces
of `self` it reads (`self.domain`, `self.visited_urls`). The Python body
is `parsed.netloc == self.domain and url not in self.visited_urls and
url.startswith(('http://', 'https://'))` inside a `try` whose
`except Exception: return False` catches the `ValueError` that
`urlparse` raises on bracket-malformed URLs — modelled by the
`Except.error` branch returning `false`. -/
def is_valid_url (url : String) (domain : String) (visited : Finset String) : Bool :=
  match urlparse url with
  | Except.error _ => false
  | Except.ok parsed =>
    decide (parsed.netloc = domain) &&
      decide (url ∉ visited) &&
      (startsWithStr url ("http://") || startsWithStr url ("https://"))

/-- One node of a parsed document, in document order. `Option` fields model
the presence of the `href` / `src` / `alt` attributes. -/
inductive Elem where
  | titleTag (text : String)
  | heading (level : Nat) (text : String)
  | para (text : String)
  | anchor (text : String) (href : Option String)
  | img (alt : Option String) (src : Option String)
  | other
deriving DecidableEq

/-- One heading entry of a PageRecord: `{'level': i, 'text': …}`. -/
structure HeadingRec where
  level : Nat
  text : String
deriving DecidableEq

/-- One link entry of a PageRecord: `{'text': …, 'href': …}`. -/
structure LinkRec where
  text : String
  href : String
deriving DecidableEq

/-- One image entry of a PageRecord: `{'alt': …, 'src': …}`. -/
structure ImageRec where
  alt : String
  src : String
deriving DecidableEq

/-- The dict built by `WebCrawler.extract_data` (the `scraped_at`
wall-clock timestamp is omitted). -/
structure PageRecord where
  url : String
  title : String
  headings : List HeadingRec
  paragraphs : List String
  links : List LinkRec
  images : List ImageRec
deriving DecidableEq

/-- Python `soup.find('title')` followed by `.get_text().strip()`, with `''` when
no title element exists. -/
def findTitle : List Elem → String
  | [] => ""
  | Elem.titleTag t :: _ => pyStrip t
  | _ :: rest => findTitle rest

/-- Python `soup.find_all('h{lvl}')` text contents, in document order. -/
def headingTexts (doc : List Elem) (lvl : Nat) : List String :=
  doc.filterMap fun e =>
    match e with
    | Elem.heading l t => if l = lvl then some t else none
    | _ => none

/-- The extractor `WebCrawler.extract_data`: title, headings grouped by the outer loop
`for i in range(1, 7)`, non-empty trimmed paragraphs, links with resolved
`href`, images with resolved `src` and defaulted `alt`. -/
def extract_data (doc : List Elem) (url : String) : PageRecord :=
  { url := url
  , title := findTitle doc
  , headings :=
      (List.range' 1 6).flatMap fun i =>
        (headingTexts doc i).map fun t => { level := i, text := pyStrip t }
  , paragraphs :=
      doc.filterMap fun e =>
        match e with
        | Elem.para t => if pyStrip t = "" then none else some (pyStrip t)
        | _ => none
  , links :=
      doc.filterMap fun e =>
        match e with
        | Elem.anchor t (some h) => some { text := pyStrip t, href := urljoin url h }
        | _ => none
  , images :=
      doc.filterMap fun e =>
        match e with
        | Elem.img alt (some s) => some { alt := alt.getD (""), src := urljoin url s }
        | _ => none }

/-- The link extractor `WebCrawler.extract_links`: every `href`-bearing anchor, resolved with
`urljoin` against the current URL, kept when `is_valid_url` accepts it. -/
def extract_links (doc : List Elem) (current_url : String) (domain : String)
    (visited : Finset String) : List String :=
  doc.filterMap fun e =>
    match e with
    | Elem.anchor _ (some h) =>
      let full := urljoin current_url h
      if is_valid_url full domain visited then some full else none
    | _ => none

/-- The crawler state mutated by the `while` loop of `WebCrawler.crawl`:
`self.visited_urls`, `self.to_visit`, `self.scraped_data`. -/
structure CrawlState where
  visited_urls : Finset String
  to_visit : List String
  scraped_data : List PageRecord
deriving DecidableEq

/-- The inner `for link in new_links` loop of `WebCrawler.crawl`: append
`link` to `to_visit` iff it is in neither `visited_urls` nor the current
`to_visit` contents (checked against the live list, as Python does). -/
def enqueueNew (visited : Finset String) (pending : List String)
    (links : List String) : List String :=
  links.foldl (fun acc l => if l ∉ visited ∧ l ∉ acc then acc ++ [l] else acc) pending

/-- One iteration of the `while` loop of `WebCrawler.crawl`. `none` means
the loop guard `self.to_visit and len(self.visited_urls) < self.max_pages`
fails and the loop exits; `some` is the state after one iteration:
pop the head, skip it if already visited, otherwise mark it visited,
fetch, and on success append the extracted record and enqueue the new
links; on fetch failure only the visited mark remains. -/
def crawlStep (fetch : String → Option (List Elem)) (domain : String)
    (max_pages : Int) (st : CrawlState) : Option CrawlState :=
  match st.to_visit with
  | [] => none
  | u :: rest =>
    if (st.visited_urls.card : Int) < max_pages then
      if u ∈ st.visited_urls then
        some { st with to_visit := rest }
      else
        let visited := insert u st.visited_urls
        match fetch u with
        | some doc =>
          some { visited_urls := visited
               , to_visit := enqueueNew visited rest (extract_links doc u domain visited)
               , scraped_data := st.scraped_data ++ [extract_data doc u] }
        | none =>
          some { visited_urls := visited, to_visit := rest, scraped_data := st.scraped_data }
    else none

/-- The `while` loop of `WebCrawler.crawl`, driven by fuel: apply
`crawlStep` until it reports loop exit (or fuel runs out; `crawlLoop_stops`
below shows the fuel used by `crawl` never runs out). -/
def crawlLoop (fetch : String → Option (List Elem)) (domain : String)
    (max_pages : Int) : Nat → CrawlState → CrawlState
  | 0, st => st
  | fuel + 1, st =>
    match crawlStep fetch domain max_pages st with
    | none => st
    | some t => crawlLoop fetch domain max_pages fuel t

/-- The fields of a `WebCrawler` instance the crawl engine reads or writes
(`delay`, the HTTP session, the logger and the user-agent pool carry no
data relevant to the claims). -/
structure WebCrawler where
  base_url : String
  max_pages : Int
  visited_urls : Finset String
  to_visit : List String
  scraped_data : List PageRecord
  domain : String

/-- The crawler object produced by `WebCrawler.__init__` when
construction succeeds: the stored configuration, an empty visited set
and result store, the frontier seeded with `base_url`, and
`domain = urlparse(base_url).netloc`. Construction as a caller sees it,
including the seed for which `urlparse` raises, is `mkWebCrawler`. -/
def webCrawlerInit (base_url : String) (max_pages : Int) : WebCrawler :=
  { base_url := base_url
  , max_pages := max_pages
  , visited_urls := ∅
  , to_visit := [base_url]
  , scraped_data := []
  , domain := (urlparseRaw base_url).netloc }

/-- Construction as seen by a caller. The `WebCrawler(...)` constructor
body performs no argument check of its own and contains no `raise` — the
spec's `ConfigError` does not exist and any `max_pages` is accepted —
but the `urlparse(base_url).netloc` call deriving `domain` is not inside
a `try`, so the `ValueError` it raises on a seed with an
unmatched-bracket authority escapes and construction fails. -/
def mkWebCrawler (base_url : String) (max_pages : Int) :
    Except PyError WebCrawler :=
  match urlparse base_url with
  | Except.error e => Except.error e
  | Except.ok _ => Except.ok (webCrawlerInit base_url max_pages)

/-- The loop state held by a crawler instance. -/
def stateOf (c : WebCrawler) : CrawlState :=
  { visited_urls := c.visited_urls, to_visit := c.to_visit, scraped_data := c.scraped_data }

/-- The run entry point `WebCrawler.crawl`: run the `while` loop to completion from the
crawler's current state. The fuel `max_pages.toNat + 1` is sufficient:
from the initial state the skip branch never fires (see the frontier
invariant), so the loop performs at most `max_pages` iterations before
the guard fails. The final state carries the returned `scraped_data`
together with the final `visited_urls` and `to_visit`. -/
def crawl (fetch : String → Option (List Elem)) (c : WebCrawler) : CrawlState :=
  crawlLoop fetch c.domain c.max_pages (c.max_pages.toNat + 1) (stateOf c)

/-- One loop iteration as a relation between states. -/
def stepRel (fetch : String → Option (List Elem)) (domain : String)
    (max_pages : Int) (s t : CrawlState) : Prop :=
  crawlStep fetch domain max_pages s = some t

/-- States the `while` loop can be in, starting from a given state. -/
def Reachable (fetch : String → Option (List Elem)) (domain : String)
    (max_pages : Int) : CrawlState → CrawlState → Prop :=
  Relation.ReflTransGen (stepRel fetch domain max_pages)

/-- The frontier invariant of the crawl loop: no pending URL is already
visited, and the pending list holds no duplicates. -/
def FrontierInv (st : CrawlState) : Prop :=
  (∀ u ∈ st.to_visit, u ∉ st.visited_urls) ∧ st.to_visit.Nodup

/-- The dict built by `WebCrawler.get_statistics` when the result store is
non-empty. -/
structure Stats where
  total_pages : Nat
  total_links : Nat
  total_images : Nat
  total_headings : Nat
  total_paragraphs : Nat
  unique_urls : Nat
deriving DecidableEq

/-- The statistics query `WebCrawler.get_statistics`: the Python method returns the empty dict
`{}` when `scraped_data` is empty (modelled as `none`), otherwise the
per-field sums over the result store, with
`unique_urls = len(set(item['url'] for item in scraped_data))`. -/
def get_statistics (scraped : List PageRecord) : Option Stats :=
  if scraped = [] then none
  else some
    { total_pages := scraped.length
    , total_links := (scraped.map fun r => r.links.length).sum
    , total_images := (scraped.map fun r => r.images.length).sum
    , total_headings := (scraped.map fun r => r.headings.length).sum
    , total_paragraphs := (scraped.map fun r => r.paragraphs.length).sum
    , unique_urls := (scraped.map fun r => r.url).toFinset.card }

/-- The validator contract exactly as §4.1 of the specification words it
(written from the spec's sentence, deliberately not from the code, to be
compared with `is_valid_url`): the URL's scheme is http or https, its
network authority exactly equals the domain, and it is not already
visited; a URL that cannot be parsed is classified not-crawlable. -/
def isCrawlableSpec (url : String) (domain : String) (visited : Finset String) : Bool :=
  match urlparse url with
  | Except.error _ => false
  | Except.ok p =>
    (decide (p.scheme = ("http")) || decide (p.scheme = ("https"))) &&
      decide (p.netloc = domain) &&
      decide (url ∉ visited)

/-- Concrete seed URL used by witnesses and counterexamples. -/
def exSeed : String := "https://example.com"

/-- A same-domain URL linked from the concrete pages. -/
def exA : String := "https://example.com/a"

/-- A second same-domain URL linked from the concrete pages. -/
def exB : String := "https://example.com/b"

/-- Fetch oracle where the seed page succeeds with two internal links and
the fetch of `exA` fails (a simulated transport error). -/
def exBrokenFetch : String → Option (List Elem) := fun u =>
  if u = exSeed then
    some [Elem.anchor ("A") (some exA), Elem.anchor ("B") (some exB)]
  else if u = exA then none
  else some []

/-- Fetch oracle where every page succeeds and links to `exA` and `exB`. -/
def exLinkedFetch : String → Option (List Elem) := fun _ =>
  some [Elem.anchor ("A") (some exA), Elem.anchor ("B") (some exB)]

/-- Fetch oracle where every fetch fails. -/
def exFailFetch : String → Option (List Elem) := fun _ => none

/-- A document whose headings appear out of level order in the document
(an h2 before an h1, then another h2). -/
def exDoc : List Elem :=
  [Elem.heading 2 (" b "), Elem.heading 1 (" a "), Elem.para ("p"), Elem.heading 2 ("c")]

/-- Two page records carrying {1,2} headings, {2,1} paragraphs, {1,1}
links and {1,0} images — the statistics scenario of §8. -/
def exStore : List PageRecord :=
  [ { url := ("https://example.com/p1"), title := ("P1")
    , headings := [{ level := 1, text := ("H1") }]
    , paragraphs := [("pa"), ("pb")]
    , links := [{ text := ("l1"), href := exA }]
    , images := [{ alt := ("i1"), src := exB }] }
  , { url := ("https://example.com/p2"), title := ("P2")
    , headings := [{ level := 1, text := ("H2") }, { level := 2, text := ("H3") }]
    , paragraphs := [("pc")]
    , links := [{ text := ("l2"), href := exB }]
    , images := [] } ]

/-- The expected statistics for `exStore`. -/
def exStats : Stats :=
  { total_pages := 2, total_links := 2, total_images := 1
  , total_headings := 3, total_paragraphs := 3, unique_urls := 2 }

section CrawlLemmas

variable (fetch : String → Option (List Elem)) (domain : String) (mp : Int)

/-- Exhaustive description of one loop iteration: either the guard fails
(empty frontier or budget reached) and the loop exits, or the head is
dequeued and one of the skip / fetch-success / fetch-failure branches
runs. -/
theorem crawlStep_cases (st : CrawlState) :
    (crawlStep fetch domain mp st = none ∧
      (st.to_visit = [] ∨ mp ≤ (st.visited_urls.card : Int))) ∨
    (∃ u rest, st.to_visit = u :: rest ∧ (st.visited_urls.card : Int) < mp ∧
      ((u ∈ st.visited_urls ∧
          crawlStep fetch domain mp st = some { st with to_visit := rest }) ∨
       (u ∉ st.visited_urls ∧ ∃ doc, fetch u = some doc ∧
          crawlStep fetch domain mp st =
            some { visited_urls := insert u st.visited_urls
                 , to_visit := enqueueNew (insert u st.visited_urls) rest
                     (extract_links doc u domain (insert u st.visited_urls))
                 , scraped_data := st.scraped_data ++ [extract_data doc u] }) ∨
       (u ∉ st.visited_urls ∧ fetch u = none ∧
          crawlStep fetch domain mp st =
            some { visited_urls := insert u st.visited_urls
                 , to_visit := rest
                 , scraped_data := st.scraped_data }))) := by
  cases hp : st.to_visit with
  | nil => exact Or.inl ⟨by simp [crawlStep, hp], Or.inl rfl⟩
  | cons u rest =>
    by_cases hc : (st.visited_urls.card : Int) < mp
    · refine Or.inr ⟨u, rest, rfl, hc, ?_⟩
      by_cases hv : u ∈ st.visited_urls
      · exact Or.inl ⟨hv, by simp [crawlStep, hp, hc, hv]⟩
      · cases hf : fetch u with
        | some doc =>
          exact Or.inr (Or.inl ⟨hv, doc, rfl, by simp [crawlStep, hp, hc, hv, hf]⟩)
        | none =>
          exact Or.inr (Or.inr ⟨hv, rfl, by simp [crawlStep, hp, hc, hv, hf]⟩)
    · exact Or.inl ⟨by simp [crawlStep, hp, hc], Or.inr (by omega)⟩

/-- A loop exit means the frontier was empty or the budget was reached. -/
theorem crawlStep_none (st : CrawlState)
    (h : crawlStep fetch domain mp st = none) :
    st.to_visit = [] ∨ mp ≤ (st.visited_urls.card : Int) := by
  rcases crawlStep_cases fetch domain mp st with ⟨_, hg⟩ | ⟨u, rest, _, _, hbr⟩
  · exact hg
  · rcases hbr with ⟨_, hs⟩ | ⟨_, _, _, hs⟩ | ⟨_, _, hs⟩ <;> rw [h] at hs <;> cases hs

/-- One iteration never removes URLs from the visited set. -/
theorem crawlStep_visited_mono {st t : CrawlState}
    (h : crawlStep fetch domain mp st = some t) :
    st.visited_urls ⊆ t.visited_urls := by
  rcases crawlStep_cases fetch domain mp st with ⟨hn, _⟩ | ⟨u, rest, _, _, hbr⟩
  · rw [h] at hn; cases hn
  · rcases hbr with ⟨_, hs⟩ | ⟨_, _, _, hs⟩ | ⟨_, _, hs⟩ <;> rw [h] at hs <;>
      cases (Option.some.injEq _ _).mp hs <;> simp [Finset.subset_insert]

/-- Per-iteration accounting: the visited set grows by at most one, the
result store grows by at most as much as the visited set, and the visited
count never exceeds `max(card, max_pages)` after an iteration. -/
theorem crawlStep_card_scraped {st t : CrawlState}
    (h : crawlStep fetch domain mp st = some t) :
    st.visited_urls.card ≤ t.visited_urls.card ∧
    t.scraped_data.length + st.visited_urls.card ≤
      st.scraped_data.length + t.visited_urls.card ∧
    (t.visited_urls.card : Int) ≤ max (st.visited_urls.card : Int) mp := by
  rcases crawlStep_cases fetch domain mp st with ⟨hn, _⟩ | ⟨u, rest, _, hc, hbr⟩
  · rw [h] at hn; cases hn
  · rcases hbr with ⟨hv, hs⟩ | ⟨hv, doc, hf, hs⟩ | ⟨hv, hf, hs⟩ <;>
      rw [h] at hs <;> cases (Option.some.injEq _ _).mp hs <;> dsimp only
    · exact ⟨le_rfl, le_rfl, le_max_left _ _⟩
    · have hcard : (insert u st.visited_urls).card = st.visited_urls.card + 1 :=
        Finset.card_insert_of_not_mem hv
      refine ⟨by omega, ?_, ?_⟩
      · simp only [List.length_append, List.length_cons, List.length_nil, hcard]
        omega
      · refine le_trans ?_ (le_max_right _ _)
        rw [hcard]; push_cast; omega
    · have hcard : (insert u st.visited_urls).card = st.visited_urls.card + 1 :=
        Finset.card_insert_of_not_mem hv
      refine ⟨by omega, by omega, ?_⟩
      refine le_trans ?_ (le_max_right _ _)
      rw [hcard]; push_cast; omega

/-- How one iteration can change the visited set: not at all (skip branch),
or by inserting exactly the dequeued head, which was not yet visited. -/
theorem crawlStep_visited_change {st t : CrawlState}
    (h : crawlStep fetch domain mp st = some t) :
    t.visited_urls = st.visited_urls ∨
      ∃ u rest, st.to_visit = u :: rest ∧ u ∉ st.visited_urls ∧
        t.visited_urls = insert u st.visited_urls := by
  rcases crawlStep_cases fetch domain mp st with ⟨hn, _⟩ | ⟨u, rest, hp, hc, hbr⟩
  · rw [h] at hn; cases hn
  · rcases hbr with ⟨hv, hs⟩ | ⟨hv, doc, hf, hs⟩ | ⟨hv, hf, hs⟩ <;>
      rw [h] at hs <;> cases (Option.some.injEq _ _).mp hs <;> dsimp only
    · exact Or.inl rfl
    · exact Or.inr ⟨u, rest, hp, hv, rfl⟩
    · exact Or.inr ⟨u, rest, hp, hv, rfl⟩

/-- Out of fuel: the loop returns the current state. -/
theorem crawlLoop_zero (st : CrawlState) :
    crawlLoop fetch domain mp 0 st = st := rfl

/-- Guard failed: the loop exits with the current state. -/
theorem crawlLoop_succ_none {st : CrawlState} {n : Nat}
    (h : crawlStep fetch domain mp st = none) :
    crawlLoop fetch domain mp (n + 1) st = st := by
  rw [crawlLoop, h]

/-- Guard held: the loop runs one iteration and continues. -/
theorem crawlLoop_succ_some {st t : CrawlState} {n : Nat}
    (h : crawlStep fetch domain mp st = some t) :
    crawlLoop fetch domain mp (n + 1) st = crawlLoop fetch domain mp n t := by
  rw [crawlLoop, h]

/-- The visited set never shrinks over any number of loop iterations. -/
theorem crawlLoop_visited_mono :
    ∀ (fuel : Nat) (st : CrawlState),
      st.visited_urls ⊆ (crawlLoop fetch domain mp fuel st).visited_urls := by
  intro fuel
  induction fuel with
  | zero => intro st; exact Finset.Subset.refl _
  | succ n ih =>
    intro st
    rw [crawlLoop]
    cases h : crawlStep fetch domain mp st with
    | none => exact Finset.Subset.refl _
    | some t =>
      exact (crawlStep_visited_mono fetch domain mp h).trans (ih t)

/-- Over any run, the result store grows by at most as much as the visited
set does. -/
theorem crawlLoop_scraped_le :
    ∀ (fuel : Nat) (st : CrawlState),
      (crawlLoop fetch domain mp fuel st).scraped_data.length +
          st.visited_urls.card ≤
        st.scraped_data.length +
          (crawlLoop fetch domain mp fuel st).visited_urls.card := by
  intro fuel
  induction fuel with
  | zero => intro st; rw [crawlLoop_zero]
  | succ n ih =>
    intro st
    cases h : crawlStep fetch domain mp st with
    | none => rw [crawlLoop_succ_none fetch domain mp h]
    | some t =>
      rw [crawlLoop_succ_some fetch domain mp h]
      have hstep := crawlStep_card_scraped fetch domain mp h
      have := ih t
      omega

/-- Over any run, the visited count stays below `max(card, max_pages)`. -/
theorem crawlLoop_card_bound :
    ∀ (fuel : Nat) (st : CrawlState),
      ((crawlLoop fetch domain mp fuel st).visited_urls.card : Int) ≤
        max (st.visited_urls.card : Int) mp := by
  intro fuel
  induction fuel with
  | zero => intro st; rw [crawlLoop_zero]; exact le_max_left _ _
  | succ n ih =>
    intro st
    cases h : crawlStep fetch domain mp st with
    | none => rw [crawlLoop_succ_none fetch domain mp h]; exact le_max_left _ _
    | some t =>
      rw [crawlLoop_succ_some fetch domain mp h]
      have hstep := (crawlStep_card_scraped fetch domain mp h).2.2
      have htail := ih t
      have : max (t.visited_urls.card : Int) mp ≤
          max (st.visited_urls.card : Int) mp := by
        apply max_le
        · exact hstep.trans (max_le (le_max_left _ _) (le_max_right _ _))
        · exact le_max_right _ _
      exact htail.trans this

/-- When every URL that ends up visited fetches successfully, the result
store grows in lockstep with the visited set. -/
theorem crawlLoop_scraped_eq :
    ∀ (fuel : Nat) (st : CrawlState),
      (∀ u ∈ (crawlLoop fetch domain mp fuel st).visited_urls,
          (fetch u).isSome = true) →
      (crawlLoop fetch domain mp fuel st).scraped_data.length +
          st.visited_urls.card =
        st.scraped_data.length +
          (crawlLoop fetch domain mp fuel st).visited_urls.card := by
  intro fuel
  induction fuel with
  | zero => intro st _; rw [crawlLoop_zero]
  | succ n ih =>
    intro st hok
    cases h : crawlStep fetch domain mp st with
    | none => rw [crawlLoop_succ_none fetch domain mp h]
    | some t =>
      rw [crawlLoop_succ_some fetch domain mp h] at hok ⊢
      have htail := ih t hok
      rcases crawlStep_cases fetch domain mp st with ⟨hn, _⟩ | ⟨u, rest, hp, hc, hbr⟩
      · rw [h] at hn; cases hn
      · rcases hbr with ⟨hv, hs⟩ | ⟨hv, doc, hf, hs⟩ | ⟨hv, hf, hs⟩ <;>
          rw [h] at hs <;> cases (Option.some.injEq _ _).mp hs
        · dsimp only at htail ⊢; omega
        · have hcard : (insert u st.visited_urls).card = st.visited_urls.card + 1 :=
            Finset.card_insert_of_not_mem hv
          dsimp only at htail ⊢
          simp only [List.length_append, List.length_cons, List.length_nil] at htail ⊢
          omega
        · exfalso
          have hu : u ∈ (crawlLoop fetch domain mp n
              { visited_urls := insert u st.visited_urls
              , to_visit := rest
              , scraped_data := st.scraped_data }).visited_urls := by
            apply crawlLoop_visited_mono
            exact Finset.mem_insert_self _ _
          have := hok u hu
          rw [hf] at this
          cases this

/-- The inner enqueue loop keeps the frontier invariant: it only appends
URLs that are neither visited nor already pending. -/
theorem enqueueNew_inv (visited : Finset String) :
    ∀ (links pending : List String),
      (∀ x ∈ pending, x ∉ visited) → pending.Nodup →
      (∀ x ∈ enqueueNew visited pending links, x ∉ visited) ∧
        (enqueueNew visited pending links).Nodup := by
  intro links
  induction links with
  | nil => intro pending h1 h2; exact ⟨h1, h2⟩
  | cons l ls ih =>
    intro pending h1 h2
    have hunfold : enqueueNew visited pending (l :: ls) =
        enqueueNew visited
          (if l ∉ visited ∧ l ∉ pending then pending ++ [l] else pending) ls := by
      simp only [enqueueNew, List.foldl_cons]
    rw [hunfold]
    by_cases hl : l ∉ visited ∧ l ∉ pending
    · rw [if_pos hl]
      apply ih
      · intro x hx
        rcases List.mem_append.mp hx with hx | hx
        · exact h1 x hx
        · rw [List.mem_singleton.mp hx]; exact hl.1
      · rw [List.nodup_append]
        exact ⟨h2, List.nodup_singleton l, by
          intro a ha hb
          rw [List.mem_singleton.mp hb] at ha
          exact hl.2 ha⟩
    · rw [if_neg hl]
      exact ih pending h1 h2

/-- One iteration preserves the frontier invariant. -/
theorem crawlStep_inv {st t : CrawlState} (hInv : FrontierInv st)
    (h : crawlStep fetch domain mp st = some t) : FrontierInv t := by
  rcases crawlStep_cases fetch domain mp st with ⟨hn, _⟩ | ⟨u, rest, hp, hc, hbr⟩
  · rw [h] at hn; cases hn
  · obtain ⟨hdisj, hnd⟩ := hInv
    rw [hp] at hdisj hnd
    have hrest : ∀ x ∈ rest, x ∉ st.visited_urls := fun x hx =>
      hdisj x (List.mem_cons_of_mem u hx)
    have hndrest : rest.Nodup := hnd.of_cons
    have hrest' : ∀ x ∈ rest, x ∉ insert u st.visited_urls := by
      intro x hx
      rw [Finset.mem_insert]
      rintro (rfl | hmem)
      · exact (List.nodup_cons.mp hnd).1 hx
      · exact hrest x hx hmem
    rcases hbr with ⟨hv, hs⟩ | ⟨hv, doc, hf, hs⟩ | ⟨hv, hf, hs⟩ <;>
      rw [h] at hs <;> cases (Option.some.injEq _ _).mp hs
    · exact ⟨hrest, hndrest⟩
    · exact enqueueNew_inv _ _ _ hrest' hndrest
    · exact ⟨hrest', hndrest⟩

/-- From a state with a sound frontier, the fuel `max_pages - card`
(plus one) is enough for the loop to reach a genuine exit: the final
state has an empty frontier or a full budget. -/
theorem crawlLoop_stops :
    ∀ (fuel : Nat) (st : CrawlState), FrontierInv st →
      (mp - (st.visited_urls.card : Int)).toNat < fuel →
      ((crawlLoop fetch domain mp fuel st).to_visit = [] ∨
        mp ≤ ((crawlLoop fetch domain mp fuel st).visited_urls.card : Int)) := by
  intro fuel
  induction fuel with
  | zero => intro st _ hlt; omega
  | succ n ih =>
    intro st hInv hlt
    cases h : crawlStep fetch domain mp st with
    | none =>
      rw [crawlLoop_succ_none fetch domain mp h]
      exact crawlStep_none fetch domain mp st h
    | some t =>
      rw [crawlLoop_succ_some fetch domain mp h]
      apply ih t (crawlStep_inv fetch domain mp hInv h)
      rcases crawlStep_cases fetch domain mp st with ⟨hn, _⟩ | ⟨u, rest, hp, hc, hbr⟩
      · rw [h] at hn; cases hn
      · obtain ⟨hdisj, _⟩ := hInv
        have hv : u ∉ st.visited_urls := hdisj u (hp ▸ List.mem_cons_self u rest)
        have hcard : t.visited_urls.card = st.visited_urls.card + 1 := by
          rcases hbr with ⟨hv', hs⟩ | ⟨_, doc, hf, hs⟩ | ⟨_, hf, hs⟩
          · exact absurd hv' hv
          · rw [h] at hs; cases (Option.some.injEq _ _).mp hs
            exact Finset.card_insert_of_not_mem hv
          · rw [h] at hs; cases (Option.some.injEq _ _).mp hs
            exact Finset.card_insert_of_not_mem hv
        rw [hcard]
        push_cast
        omega

/-- The frontier invariant holds in every state the loop can reach from a
state satisfying it. -/
theorem reachable_inv {s₀ s : CrawlState} (h₀ : FrontierInv s₀)
    (h : Reachable fetch domain mp s₀ s) : FrontierInv s := by
  have h' : Relation.ReflTransGen (stepRel fetch domain mp) s₀ s := h
  clear h
  induction h' with
  | refl => exact h₀
  | tail _ hstep ih => exact crawlStep_inv fetch domain mp ih hstep

end CrawlLemmas

/-- The state a fresh crawler starts its loop from satisfies the frontier
invariant: the frontier is the seed alone and nothing is visited. -/
theorem init_frontier_inv (url : String) (mp : Int) :
    FrontierInv (stateOf (webCrawlerInit url mp)) := by
  constructor
  · intro u hu
    simp [stateOf, webCrawlerInit]
  · simp [stateOf, webCrawlerInit]

/-- A positive character-list prefix test yields the list decomposition. -/
theorem prefixCheck_exists :
    ∀ (p s : List Char), p.isPrefixOf s = true → ∃ t, s = p ++ t := by
  intro p
  induction p with
  | nil => intro s _; exact ⟨s, rfl⟩
  | cons a p ih =>
    intro s h
    cases s with
    | nil => simp [List.isPrefixOf] at h
    | cons b s =>
      simp only [List.isPrefixOf, Bool.and_eq_true, beq_iff_eq] at h
      obtain ⟨rfl, h2⟩ := h
      obtain ⟨t, rfl⟩ := ih s h2
      exact ⟨t, rfl⟩

/-- A URL beginning with the literal `http://` parses to scheme `http`. -/
theorem scheme_of_http_start (url : String)
    (h : startsWithStr url ("http://") = true) :
    (urlparseRaw url).scheme = ("http") := by
  obtain ⟨t, ht⟩ := prefixCheck_exists _ _ h
  have hlist : url.toList = 'h' :: 't' :: 't' :: 'p' :: ':' :: '/' :: '/' :: t := by
    rw [ht]; rfl
  unfold urlparseRaw
  rw [hlist]
  rfl

/-- A URL beginning with the literal `https://` parses to scheme `https`. -/
theorem scheme_of_https_start (url : String)
    (h : startsWithStr url ("https://") = true) :
    (urlparseRaw url).scheme = ("https") := by
  obtain ⟨t, ht⟩ := prefixCheck_exists _ _ h
  have hlist : url.toList = 'h' :: 't' :: 't' :: 'p' :: 's' :: ':' :: '/' :: '/' :: t := by
    rw [ht]; rfl
  unfold urlparseRaw
  rw [hlist]
  rfl

/-- A successful parse returns exactly the raw component extraction. -/
theorem urlparse_ok_eq {url : String} {p : ParsedUrl}
    (h : urlparse url = Except.ok p) : p = urlparseRaw url := by
  unfold urlparse at h
  by_cases hb : invalidNetloc (urlparseRaw url).netloc = true
  · rw [if_pos hb] at h; cases h
  · rw [if_neg hb] at h
    exact ((Except.ok.injEq _ _).mp h).symm

/-- Concatenating per-level groups in ascending level order yields a list
whose levels are pairwise non-decreasing. -/
theorem flatMap_levels_pairwise (g : Nat → List HeadingRec)
    (hg : ∀ i, ∀ h ∈ g i, h.level = i) :
    ∀ L : List Nat, L.Pairwise (· ≤ ·) →
      (L.flatMap g).Pairwise (fun a b => a.level ≤ b.level) := by
  intro L
  induction L with
  | nil => intro _; simp
  | cons a L ih =>
    intro hL
    rw [List.flatMap_cons, List.pairwise_append]
    refine ⟨?_, ih (List.Pairwise.of_cons hL), ?_⟩
    · apply List.pairwise_of_forall_mem_list
      intro x hx y hy
      rw [hg a x hx, hg a y hy]
    · intro x hx y hy
      obtain ⟨b, hb, hyb⟩ := List.mem_flatMap.mp hy
      rw [hg a x hx, hg b y hyb]
      exact (List.pairwise_cons.mp hL).1 b hb

/-- Filtering the concatenation of per-level groups at one of the levels
recovers exactly that level's group. -/
theorem flatMap_levels_filter (g : Nat → List HeadingRec)
    (hg : ∀ i, ∀ h ∈ g i, h.level = i) :
    ∀ (L : List Nat) (l : Nat), L.Nodup → l ∈ L →
      (L.flatMap g).filter (fun h => h.level == l) = g l := by
  intro L
  induction L with
  | nil => intro l _ hl; cases hl
  | cons a L ih =>
    intro l hnd hl
    rw [List.flatMap_cons, List.filter_append]
    rcases List.mem_cons.mp hl with rfl | hl
    · have h1 : (g l).filter (fun h => h.level == l) = g l :=
        List.filter_eq_self.mpr fun h hh => by simp [hg l h hh]
      have h2 : (L.flatMap g).filter (fun h => h.level == l) = [] := by
        apply List.filter_eq_nil_iff.mpr
        intro h hh
        obtain ⟨b, hb, hhb⟩ := List.mem_flatMap.mp hh
        have hbl : b ≠ l := fun heq => (List.nodup_cons.mp hnd).1 (heq ▸ hb)
        simp [hg b h hhb, hbl]
      rw [h1, h2, List.append_nil]
    · have ha : a ≠ l := fun heq => (List.nodup_cons.mp hnd).1 (heq ▸ hl)
      have h1 : (g a).filter (fun h => h.level == l) = [] := by
        apply List.filter_eq_nil_iff.mpr
        intro h hh
        simp [hg a h hh, ha]
      rw [h1, List.nil_append]
      exact ih l (List.nodup_cons.mp hnd).2 hl

/-- Claim C1, amended: For every crawl run from a configuration with
`maxPages ≥ 1`, the number of PageRecords in the result store never
exceeds `maxPages`; the store size equals `maxPages` whenever the pending
frontier does not become empty before the page budget is reached **and
every dequeued URL's fetch succeeds** (the original equality clause fails
when a fetch fails, see the counterexample). -/
theorem c1_result_store_bounded (fetch : String → Option (List Elem))
    (url : String) (mp : Int) (hmp : 1 ≤ mp) :
    ((crawl fetch (webCrawlerInit url mp)).scraped_data.length : Int) ≤ mp ∧
    (((crawl fetch (webCrawlerInit url mp)).to_visit ≠ [] ∧
        ∀ u ∈ (crawl fetch (webCrawlerInit url mp)).visited_urls,
          (fetch u).isSome = true) →
      ((crawl fetch (webCrawlerInit url mp)).scraped_data.length : Int) = mp) := by
  have hcrawl : crawl fetch (webCrawlerInit url mp) =
      crawlLoop fetch ((urlparseRaw url).netloc) mp (mp.toNat + 1)
        (stateOf (webCrawlerInit url mp)) := rfl
  have hle := crawlLoop_scraped_le fetch ((urlparseRaw url).netloc) mp
    (mp.toNat + 1) (stateOf (webCrawlerInit url mp))
  have hbound := crawlLoop_card_bound fetch ((urlparseRaw url).netloc) mp
    (mp.toNat + 1) (stateOf (webCrawlerInit url mp))
  have hstop := crawlLoop_stops fetch ((urlparseRaw url).netloc) mp
    (mp.toNat + 1) (stateOf (webCrawlerInit url mp)) (init_frontier_inv url mp)
    (by simp only [stateOf, webCrawlerInit, Finset.card_empty, Nat.cast_zero,
          Int.sub_zero]; omega)
  simp only [stateOf, webCrawlerInit, Finset.card_empty, List.length_nil,
    Nat.cast_zero, Nat.add_zero, Nat.zero_add] at hle hbound hstop
  rw [max_eq_right (by omega : (0 : Int) ≤ mp)] at hbound
  rw [hcrawl]
  simp only [stateOf, webCrawlerInit]
  constructor
  · omega
  · rintro ⟨hpend, hok⟩
    have heq := crawlLoop_scraped_eq fetch ((urlparseRaw url).netloc) mp
      (mp.toNat + 1) (stateOf (webCrawlerInit url mp)) (by
        simp only [stateOf, webCrawlerInit]
        exact hok)
    simp only [stateOf, webCrawlerInit, Finset.card_empty, List.length_nil,
      Nat.add_zero, Nat.zero_add] at heq
    rcases hstop with hnil | hfull
    · exact absurd hnil hpend
    · omega

/-- Witness for claim C1: An all-success run with budget 2 in which the frontier
stays non-empty at exit; the theorem yields a result store of exactly 2
records. -/
theorem c1_witness :
    ((crawl exLinkedFetch (webCrawlerInit exSeed 2)).scraped_data.length : Int) = 2 :=
  (c1_result_store_bounded exLinkedFetch exSeed 2 (by omega)).2
    ⟨by decide, by decide⟩

/-- Counterexample for claim C1: A run with `maxPages = 2` whose seed page
yields two internal links but whose second fetch fails: the budget is
reached (`|visited| = 2`) with the frontier still non-empty, yet the
result store holds 1 record, not `maxPages = 2`. This falsifies the
claim's equality clause as stated. -/
theorem c1_counterexample :
    (crawl exBrokenFetch (webCrawlerInit exSeed 2)).to_visit ≠ [] ∧
      (crawl exBrokenFetch (webCrawlerInit exSeed 2)).visited_urls.card = 2 ∧
      (crawl exBrokenFetch (webCrawlerInit exSeed 2)).scraped_data.length = 1 :=
  ⟨by decide, by decide, by decide⟩

/-- Claim C2, amended: For every crawl run in which every dequeued URL
fetch-succeeds (a dequeued URL is exactly a URL in the final visited
set), the final size of the visited set equals the number of PageRecords
returned by `crawl()`. The original claim also admitted runs with failed
fetches, where the equality breaks (see the counterexample). -/
theorem c2_visited_matches_records (fetch : String → Option (List Elem))
    (url : String) (mp : Int)
    (hok : ∀ u ∈ (crawl fetch (webCrawlerInit url mp)).visited_urls,
      (fetch u).isSome = true) :
    (crawl fetch (webCrawlerInit url mp)).visited_urls.card =
      (crawl fetch (webCrawlerInit url mp)).scraped_data.length := by
  have hcrawl : crawl fetch (webCrawlerInit url mp) =
      crawlLoop fetch ((urlparseRaw url).netloc) mp (mp.toNat + 1)
        (stateOf (webCrawlerInit url mp)) := rfl
  rw [hcrawl] at hok ⊢
  have heq := crawlLoop_scraped_eq fetch ((urlparseRaw url).netloc) mp
    (mp.toNat + 1) (stateOf (webCrawlerInit url mp)) hok
  simp only [stateOf, webCrawlerInit, Finset.card_empty, List.length_nil,
    Nat.add_zero, Nat.zero_add] at heq
  simp only [stateOf, webCrawlerInit]
  omega

/-- Witness for claim C2: An all-success run with budget 2: both counts are 2. -/
theorem c2_witness :
    (crawl exLinkedFetch (webCrawlerInit exSeed 2)).visited_urls.card =
      (crawl exLinkedFetch (webCrawlerInit exSeed 2)).scraped_data.length :=
  c2_visited_matches_records exLinkedFetch exSeed 2 (by decide)

/-- Counterexample for claim C2: A run in which the only dequeued URL (the seed)
fetch-fails exactly once — satisfying the claim's "succeeds or fails
exactly once, no retries" hypothesis — yet `|visited| = 1` while zero
PageRecords are returned. -/
theorem c2_counterexample :
    (crawl exFailFetch (webCrawlerInit exSeed 1)).visited_urls = {exSeed} ∧
      (crawl exFailFetch (webCrawlerInit exSeed 1)).scraped_data = [] ∧
      (crawl exFailFetch (webCrawlerInit exSeed 1)).visited_urls.card ≠
        (crawl exFailFetch (webCrawlerInit exSeed 1)).scraped_data.length :=
  ⟨by decide, by decide, by decide⟩

/-- Claim C3, amended: construction fails exactly when `urlparse` raises
on the seed — an authority with an unmatched bracket — in which case the
`ValueError` escapes the constructor uncaught and the crawl never
starts. No other validation occurs: no `ConfigError` exists in the code,
a non-positive `maxPages` is accepted, and a seed that merely lacks a
scheme or authority (such as `":::"`) is accepted with an empty derived
domain. -/
theorem c3_construction_validation (url : String) (mp : Int) :
    (invalidNetloc (urlparseRaw url).netloc = false →
      mkWebCrawler url mp = Except.ok (webCrawlerInit url mp) ∧
        (webCrawlerInit url mp).domain = (urlparseRaw url).netloc ∧
        (webCrawlerInit url mp).to_visit = [url]) ∧
    (invalidNetloc (urlparseRaw url).netloc = true →
      mkWebCrawler url mp =
        Except.error (PyError.valueError ("Invalid IPv6 URL"))) := by
  constructor
  · intro hok
    have hp : urlparse url = Except.ok (urlparseRaw url) := by
      unfold urlparse
      rw [if_neg (by simp [hok])]
    refine ⟨?_, rfl, rfl⟩
    unfold mkWebCrawler
    rw [hp]
  · intro hbad
    have hp : urlparse url =
        Except.error (PyError.valueError ("Invalid IPv6 URL")) := by
      unfold urlparse
      rw [if_pos hbad]
    unfold mkWebCrawler
    rw [hp]

/-- Witness for claim C3: the bracket-malformed seed `"http://["` makes
construction fail with the uncaught `ValueError`, while no other check
runs. -/
theorem c3_witness :
    mkWebCrawler ("http://[") 0 =
      Except.error (PyError.valueError ("Invalid IPv6 URL")) :=
  (c3_construction_validation ("http://[") 0).2 (by decide)

/-- Counterexample for claim C3: the seed `":::"` parses without error to
neither a scheme nor a network authority, and `maxPages = 0` is
non-positive, yet construction succeeds — refuting the claim that
construction fails (raises `ConfigError`) whenever the seed cannot be
parsed into scheme plus authority or `maxPages` is not positive. -/
theorem c3_counterexample :
    urlparse (":::") = Except.ok { scheme := (""), netloc := ("") } ∧
      mkWebCrawler (":::") 0 = Except.ok (webCrawlerInit (":::") 0) :=
  ⟨rfl, rfl⟩

/-- Claim C4, amended: when `urlparse` raises on the URL (an authority
with an unmatched bracket), the `except` branch makes `is_valid_url`
return false, so malformed URLs are rejected and no exception escapes;
when the URL parses, `is_valid_url` returns true iff the URL string
starts with the case-sensitive literal `http://` or `https://`, its
parsed network authority exactly equals the configured domain, and it is
not already visited. Every URL it accepts also satisfies the
specification's predicate (scheme http/https, authority equals domain,
unvisited), but the converse fails for non-lowercase scheme spellings
(see the counterexample). -/
theorem c4_validator_characterization (url : String) (domain : String)
    (visited : Finset String) :
    (∀ e, urlparse url = Except.error e →
      is_valid_url url domain visited = false) ∧
    (∀ p, urlparse url = Except.ok p →
      (is_valid_url url domain visited = true ↔
        (p.netloc = domain ∧ url ∉ visited ∧
          (startsWithStr url ("http://") = true ∨
            startsWithStr url ("https://") = true)))) ∧
    (is_valid_url url domain visited = true →
      isCrawlableSpec url domain visited = true) := by
  have herr : ∀ e, urlparse url = Except.error e →
      is_valid_url url domain visited = false := by
    intro e he
    unfold is_valid_url
    rw [he]
  have hok : ∀ p, urlparse url = Except.ok p →
      (is_valid_url url domain visited = true ↔
        (p.netloc = domain ∧ url ∉ visited ∧
          (startsWithStr url ("http://") = true ∨
            startsWithStr url ("https://") = true))) := by
    intro p hp
    unfold is_valid_url
    rw [hp]
    show (decide (p.netloc = domain) && decide (url ∉ visited) &&
        (startsWithStr url ("http://") || startsWithStr url ("https://"))) =
          true ↔ _
    simp only [Bool.and_eq_true, Bool.or_eq_true, decide_eq_true_eq]
    tauto
  refine ⟨herr, hok, fun hv => ?_⟩
  cases hparse : urlparse url with
  | error e => rw [herr e hparse] at hv; cases hv
  | ok p =>
    obtain ⟨hnet, hvis, hpre⟩ := (hok p hparse).mp hv
    have hpraw : p = urlparseRaw url := urlparse_ok_eq hparse
    subst hpraw
    unfold isCrawlableSpec
    rw [hparse]
    show ((decide ((urlparseRaw url).scheme = ("http")) ||
        decide ((urlparseRaw url).scheme = ("https"))) &&
        decide ((urlparseRaw url).netloc = domain) &&
        decide (url ∉ visited)) = true
    rcases hpre with hp' | hp'
    · simp [scheme_of_http_start url hp', hnet, hvis]
    · simp [scheme_of_https_start url hp', hnet, hvis]

/-- Witness for claim C4: the bracket-malformed URL `"http://["` is
rejected with no escaping exception even when its textual authority
equals the domain, and a lowercase same-domain URL accepted by the code
is also accepted by the specification's predicate. -/
theorem c4_witness :
    is_valid_url ("http://[") ("[") ∅ = false ∧
      isCrawlableSpec ("https://example.com/a") ("example.com") ∅ = true :=
  ⟨(c4_validator_characterization ("http://[") ("[") ∅).1
      (PyError.valueError ("Invalid IPv6 URL")) rfl,
    (c4_validator_characterization ("https://example.com/a") ("example.com") ∅).2.2
      (by decide)⟩

/-- Counterexample for claim C4: the URL `"HTTP://example.com/a"` has scheme `http`
(URL schemes are case-insensitive and `urlparse` lowercases them),
authority equal to the domain, and is unvisited — so the claimed
predicate accepts it — yet `is_valid_url` returns false because the
case-sensitive `startswith(('http://', 'https://'))` check fails. -/
theorem c4_counterexample :
    is_valid_url ("HTTP://example.com/a") ("example.com") ∅ = false ∧
      isCrawlableSpec ("HTTP://example.com/a") ("example.com") ∅ = true :=
  ⟨by decide, by decide⟩

/-- Claim C5: In every state reachable by the crawl loop from a fresh
crawler's initial state, no pending URL is already visited; and across
any single loop iteration the visited set either stays unchanged or
gains exactly the dequeued head, which was not yet visited — i.e. a URL
enters `visited` at most once, at dequeue time, never at enqueue time. -/
theorem c5_frontier_disjoint_visited (fetch : String → Option (List Elem))
    (mp : Int) (url : String) (s : CrawlState)
    (h : Reachable fetch ((urlparseRaw url).netloc) mp
      (stateOf (webCrawlerInit url mp)) s) :
    (∀ u ∈ s.to_visit, u ∉ s.visited_urls) ∧
      (∀ t, stepRel fetch ((urlparseRaw url).netloc) mp s t →
        t.visited_urls = s.visited_urls ∨
          ∃ u rest, s.to_visit = u :: rest ∧ u ∉ s.visited_urls ∧
            t.visited_urls = insert u s.visited_urls) := by
  have hInv := reachable_inv fetch ((urlparseRaw url).netloc) mp
    (init_frontier_inv url mp) h
  exact ⟨hInv.1, fun t ht =>
    crawlStep_visited_change fetch ((urlparseRaw url).netloc) mp ht⟩

/-- Witness for claim C5: At the initial state (reachable by zero steps) the
pending seed is not in the visited set. -/
theorem c5_witness :
    exSeed ∉ (stateOf (webCrawlerInit exSeed 2)).visited_urls :=
  (c5_frontier_disjoint_visited exLinkedFetch 2 exSeed
    (stateOf (webCrawlerInit exSeed 2)) Relation.ReflTransGen.refl).1
    exSeed (by decide)

/-- Claim C6: A dequeued URL whose fetch fails contributes zero PageRecords
(the result store passed to the continuation is unchanged), the loop is
not halted (the iteration produces a next state, not an exit), and the
crawl continues on the remaining frontier exactly as it would from that
state with the URL merely marked visited. -/
theorem c6_fetch_failure_not_fatal (fetch : String → Option (List Elem))
    (domain : String) (mp : Int) (v : Finset String) (rest : List String)
    (sc : List PageRecord) (u : String)
    (hf : fetch u = none) (hv : u ∉ v) (hc : (v.card : Int) < mp) :
    crawlStep fetch domain mp
        { visited_urls := v, to_visit := u :: rest, scraped_data := sc } =
      some { visited_urls := insert u v, to_visit := rest, scraped_data := sc } ∧
    ∀ fuel, crawlLoop fetch domain mp (fuel + 1)
        { visited_urls := v, to_visit := u :: rest, scraped_data := sc } =
      crawlLoop fetch domain mp fuel
        { visited_urls := insert u v, to_visit := rest, scraped_data := sc } := by
  have hstep : crawlStep fetch domain mp
      { visited_urls := v, to_visit := u :: rest, scraped_data := sc } =
      some { visited_urls := insert u v, to_visit := rest, scraped_data := sc } := by
    simp [crawlStep, hc, hv, hf]
  exact ⟨hstep, fun fuel => crawlLoop_succ_some fetch domain mp hstep⟩

/-- Witness for claim C6: A failing fetch of the seed under budget 1: the
iteration yields the state with the seed visited, nothing scraped, and
the loop goes on from there. -/
theorem c6_witness :
    crawlStep exFailFetch ("example.com") 1
        { visited_urls := ∅, to_visit := [exSeed], scraped_data := [] } =
      some { visited_urls := insert exSeed ∅, to_visit := [], scraped_data := [] } :=
  (c6_fetch_failure_not_fatal exFailFetch ("example.com") 1 ∅ [] [] exSeed
    rfl (by decide) (by decide)).1

/-- Claim C7: For every document, the headings of the extracted PageRecord
are grouped by level: the levels are pairwise non-decreasing (never
interleaved by document order), every entry's level lies in 1..6, and for
each level 1..6 the entries at that level are exactly the document-order
headings of that level with trimmed text. -/
theorem c7_headings_grouped (doc : List Elem) (url : String) :
    ((extract_data doc url).headings.Pairwise fun a b => a.level ≤ b.level) ∧
    (∀ h ∈ (extract_data doc url).headings, 1 ≤ h.level ∧ h.level ≤ 6) ∧
    (∀ lvl, 1 ≤ lvl → lvl ≤ 6 →
      (extract_data doc url).headings.filter (fun h => h.level == lvl) =
        (headingTexts doc lvl).map fun t => { level := lvl, text := pyStrip t }) := by
  have hg : ∀ i, ∀ h ∈ (headingTexts doc i).map
      (fun t => ({ level := i, text := pyStrip t } : HeadingRec)), h.level = i := by
    intro i h hh
    obtain ⟨t, _, rfl⟩ := List.mem_map.mp hh
    rfl
  have hheads : (extract_data doc url).headings =
      (List.range' 1 6).flatMap fun i =>
        (headingTexts doc i).map fun t => { level := i, text := pyStrip t } := rfl
  refine ⟨?_, ?_, ?_⟩
  · rw [hheads]
    exact flatMap_levels_pairwise _ hg _ (by decide)
  · rw [hheads]
    intro h hh
    obtain ⟨i, hi, hmem⟩ := List.mem_flatMap.mp hh
    have hlvl := hg i h hmem
    have hrange := List.mem_range'_1.mp hi
    omega
  · intro lvl h1 h6
    rw [hheads]
    exact flatMap_levels_filter _ hg _ lvl (by decide)
      (List.mem_range'_1.mpr (by omega))

/-- Witness for claim C7: On a document whose h2 precedes its h1, the level-2
entries of the extracted record are the two h2 headings in document
order (and, being grouped, they follow the h1 entry). -/
theorem c7_witness :
    ((extract_data exDoc exSeed).headings.filter fun h => h.level == 2) =
      [{ level := 2, text := ("b") }, { level := 2, text := ("c") }] := by
  have h := (c7_headings_grouped exDoc exSeed).2.2 2 (by omega) (by omega)
  rw [h]
  decide

/-- Claim C8: The statistics query returns the per-field sums over all
stored PageRecords — total pages, and summed link/image/heading/paragraph
counts, with `unique_urls` the number of distinct URLs — and returns the
empty structure (Python's `{}`) when the result store is empty. -/
theorem c8_statistics_sums (scraped : List PageRecord) :
    (scraped = [] → get_statistics scraped = none) ∧
    (scraped ≠ [] → get_statistics scraped =
      some { total_pages := scraped.length
           , total_links := (scraped.map fun r => r.links.length).sum
           , total_images := (scraped.map fun r => r.images.length).sum
           , total_headings := (scraped.map fun r => r.headings.length).sum
           , total_paragraphs := (scraped.map fun r => r.paragraphs.length).sum
           , unique_urls := (scraped.map fun r => r.url).toFinset.card }) := by
  constructor
  · intro h
    simp [get_statistics, h]
  · intro h
    simp [get_statistics, h]

/-- Witness for claim C8: On two records with {1,2} headings, {2,1} paragraphs,
{1,1} links, {1,0} images, the statistics are headings 3, paragraphs 3,
links 2, images 1, pages 2 (and 2 unique URLs). -/
theorem c8_witness : get_statistics exStore = some exStats := by
  have h := (c8_statistics_sums exStore).2 (by decide)
  rw [h]
  decide

/-- Claim C9: In every state reachable by the crawl loop from the initial
state (`pending = [seed]`, `visited = ∅`), the pending queue holds no
duplicate URLs, and the head of the pending queue is never already
visited — so the dequeue-time discard branch of the loop never fires. -/
theorem c9_pending_nodup_no_discard (fetch : String → Option (List Elem))
    (mp : Int) (url : String) (s : CrawlState)
    (h : Reachable fetch ((urlparseRaw url).netloc) mp
      (stateOf (webCrawlerInit url mp)) s) :
    s.to_visit.Nodup ∧
      ∀ u rest, s.to_visit = u :: rest → u ∉ s.visited_urls := by
  have hInv := reachable_inv fetch ((urlparseRaw url).netloc) mp
    (init_frontier_inv url mp) h
  exact ⟨hInv.2, fun u rest hp =>
    hInv.1 u (hp ▸ List.mem_cons_self u rest)⟩

/-- Witness for claim C9: The initial pending queue (the seed alone) has no
duplicates. -/
theorem c9_witness : (stateOf (webCrawlerInit exSeed 2)).to_visit.Nodup :=
  (c9_pending_nodup_no_discard exLinkedFetch 2 exSeed
    (stateOf (webCrawlerInit exSeed 2)) Relation.ReflTransGen.refl).1

/-- Claim C10: With `max_pages ≤ 0` the loop guard fails before the first
dequeue: `crawl()` returns immediately with the state unchanged — no URL
dequeued or fetched, empty result store, empty visited set, and the seed
still pending. -/
theorem c10_nonpositive_budget (fetch : String → Option (List Elem))
    (url : String) (mp : Int) (hmp : mp ≤ 0) :
    crawl fetch (webCrawlerInit url mp) = stateOf (webCrawlerInit url mp) ∧
    (crawl fetch (webCrawlerInit url mp)).scraped_data = [] ∧
    (crawl fetch (webCrawlerInit url mp)).visited_urls = ∅ ∧
    (crawl fetch (webCrawlerInit url mp)).to_visit = [url] ∧
    crawlStep fetch ((urlparseRaw url).netloc) mp
      (stateOf (webCrawlerInit url mp)) = none := by
  have hstep : crawlStep fetch ((urlparseRaw url).netloc) mp
      (stateOf (webCrawlerInit url mp)) = none := by
    rcases crawlStep_cases fetch ((urlparseRaw url).netloc) mp
        (stateOf (webCrawlerInit url mp)) with ⟨hn, _⟩ | ⟨u, rest, hp, hc, _⟩
    · exact hn
    · exfalso
      have hcard : (stateOf (webCrawlerInit url mp)).visited_urls.card = 0 := by
        simp [stateOf, webCrawlerInit]
      omega
  have hcrawl : crawl fetch (webCrawlerInit url mp) =
      stateOf (webCrawlerInit url mp) := by
    show crawlLoop fetch ((urlparseRaw url).netloc) mp (mp.toNat + 1)
        (stateOf (webCrawlerInit url mp)) = stateOf (webCrawlerInit url mp)
    exact crawlLoop_succ_none fetch ((urlparseRaw url).netloc) mp hstep
  refine ⟨hcrawl, ?_, ?_, ?_, hstep⟩ <;> rw [hcrawl] <;> rfl

/-- Witness for claim C10: With `max_pages = 0` the concrete run returns the
untouched initial state. -/
theorem c10_witness :
    crawl exLinkedFetch (webCrawlerInit exSeed 0) =
      stateOf (webCrawlerInit exSeed 0) :=
  (c10_nonpositive_budget exLinkedFetch exSeed 0 (by omega)).1
